import Mathlib

/-!
Verification development for the `light_swap_psp` confidential AMM program
(`src/programs/light_swap_psp/src/lib.rs`).

The program manipulates encrypted 128-bit values (`Euint128`) through the
external Inco Lightning arithmetic oracle (`new_euint128`, `as_euint128`,
`e_add`, `e_sub`, `e_mul`, `e_ge`, `e_select`).  The oracle is an external
collaborator; following the spec (§4.1: 128-bit semantic width; §4.3:
subtraction past zero "negative-wrapped") its operations are modelled here on
the plaintext denotations of the handles: natural numbers, with all
arithmetic wrapping modulo 2^128.  A handle always denotes a value < 2^128.
-/

/-- The modulus of the oracle's 128-bit arithmetic. -/
def u128Mod : Nat := 2 ^ 128

/-- Modelled from the spec: oracle `e_add` on `Euint128` handles — addition
wrapping modulo 2^128. -/
def eadd (a b : Nat) : Nat := (a + b) % u128Mod

/-- Modelled from the spec: oracle `e_sub` on `Euint128` handles — subtraction
wrapping modulo 2^128 (spec §4.3: an underflowing subtraction yields the
negative-wrapped value, it is not rejected in-band). -/
def esub (a b : Nat) : Nat := (a % u128Mod + (u128Mod - b % u128Mod)) % u128Mod

/-- Modelled from the spec: oracle `e_mul` on `Euint128` handles —
multiplication wrapping modulo 2^128. -/
def emul (a b : Nat) : Nat := (a * b) % u128Mod

/-- Modelled from the spec: oracle `e_ge` — encrypted comparison `a ≥ b`,
denoted by the boolean it encrypts. -/
def ege (a b : Nat) : Bool := b ≤ a

/-- Modelled from the spec: oracle `e_select cond t f` — oblivious selection,
denoted by the value it selects. -/
def esel (c : Bool) (t f : Nat) : Nat := if c then t else f

/-- Denotation of `as_euint128(cpi, 0)`: the encrypted-zero handle. -/
def encryptedZero : Nat := 0

/-- Account/identity keys (Solana `Pubkey`), abstracted to their identity. -/
abbrev Pubkey := Nat

/-- Modelled from the spec: `Pubkey::find_program_address` — the external
SHA-256-based PDA derivation, an "assumed correct primitive" (spec §1).  The
program relies only on it being a deterministic function of the seed list and
the program id, which any concrete encoding provides. -/
def findProgramAddress (seeds : List (List Nat)) (programId : Nat) : Nat :=
  seeds.foldl (fun acc s => s.foldl (fun a b => a * 257 + b + 1) (acc * 31 + 7)) programId

/-- The program's own id (`declare_id!`), abstracted to an identity. -/
def swapProgramId : Nat := 4

/-- The bytes of `POOL_AUTH_SEED = b"pool_authority"` (lib.rs:26). -/
def poolAuthSeed : List Nat := [112, 111, 111, 108, 95, 97, 117, 116, 104, 111, 114, 105, 116, 121]

/-- Byte encoding of a pubkey used as a PDA seed (`mint.as_ref()`), abstracted
to a singleton list carrying the key's identity. -/
def pubkeyBytes (k : Pubkey) : List Nat := [k]

/-- The pool-authority PDA derivation performed at lib.rs:205-208 and
lib.rs:362-365: `find_program_address([POOL_AUTH_SEED, mint_a, mint_b], ID)`. -/
def derivePoolAuthority (mintA mintB : Pubkey) : Pubkey :=
  findProgramAddress [poolAuthSeed, pubkeyBytes mintA, pubkeyBytes mintB] swapProgramId

/-- The `SwapPool` compressed account (lib.rs:485-497).  Encrypted fields are
carried as the plaintext denotations of their `Euint128` handles. -/
structure SwapPool where
  authority : Pubkey
  pool_authority : Pubkey
  mint_a : Pubkey
  mint_b : Pubkey
  reserve_a : Nat
  reserve_b : Nat
  protocol_fee_a : Nat
  protocol_fee_b : Nat
  fee_bps : Nat
  is_paused : Bool
  last_update_ts : Int
deriving Repr, DecidableEq

/-- Program errors: the `ErrorCode` enum of lib.rs:499-511, plus Anchor's
built-in `RequireKeysEqViolated` raised by the bare `require_keys_eq!` at
lib.rs:366 (no custom error code is supplied there). -/
inductive ProgError where
  | PoolPaused
  | InvalidInputMint
  | InvalidOutputMint
  | InvalidPermissionAccount
  | Unauthorized
  | RequireKeysEqViolated
deriving Repr, DecidableEq

/-- A token-transfer CPI as the instruction would emit it (spec §4.5 / §6). -/
inductive TransferEvent where
  | transfer (source destination authority : Pubkey) (ciphertext : Nat)
deriving Repr, DecidableEq

/-- Result of a committed `swap_exact_in` instruction: the committed pool
state, and the token-transfer CPIs the instruction itself issued. -/
structure SwapResult where
  pool : SwapPool
  transfers : List TransferEvent
deriving Repr, DecidableEq

/-- `compute_swap_updates` (lib.rs:31-106): the oblivious constant-product
update.  Decode the three client ciphertexts (their decoded plaintext values
are the `amount_in0/amount_out0/fee_amount0` parameters), gate them to zero on
`reserve_out ≥ amount_out` failing, recheck the constant product on the
candidate reserves, gate again, and recompute the final values from the
twice-gated amounts. -/
def compute_swap_updates (reserve_in reserve_out protocol_fee_in : Nat)
    (amount_in0 amount_out0 fee_amount0 : Nat) : Nat × Nat × Nat :=
  let z := encryptedZero
  let has_liquidity := ege reserve_out amount_out0
  let amount_in1 := esel has_liquidity amount_in0 z
  let amount_out1 := esel has_liquidity amount_out0 z
  let fee_amount1 := esel has_liquidity fee_amount0 z
  let temp_reserve_in := eadd reserve_in amount_in1
  let temp_reserve_out := esub reserve_out amount_out1
  let old_k := emul reserve_in reserve_out
  let new_k := emul temp_reserve_in temp_reserve_out
  let k_ok := ege new_k old_k
  let amount_in2 := esel k_ok amount_in1 z
  let amount_out2 := esel k_ok amount_out1 z
  let fee_amount2 := esel k_ok fee_amount1 z
  let new_reserve_in := eadd reserve_in amount_in2
  let new_reserve_out := esub reserve_out amount_out2
  let new_protocol_fee := eadd protocol_fee_in fee_amount2
  (new_reserve_in, new_reserve_out, new_protocol_fee)

/-- `initialize_pool` (lib.rs:162-222), success path: the pool state handed to
the compressed-state commit.  All four encrypted fields are fresh
`as_euint128(0)` handles; `pool_authority` is derived from
`(POOL_AUTH_SEED, mint_a, mint_b)`; `is_paused` starts false; `last_update_ts`
is the current clock (`now`). -/
def initializePool (authority mint_a mint_b : Pubkey) (fee_bps : Nat) (now : Int) : SwapPool :=
  { authority := authority
    pool_authority := derivePoolAuthority mint_a mint_b
    mint_a := mint_a
    mint_b := mint_b
    reserve_a := encryptedZero
    reserve_b := encryptedZero
    protocol_fee_a := encryptedZero
    protocol_fee_b := encryptedZero
    fee_bps := fee_bps
    is_paused := false
    last_update_ts := now }

/-- `add_liquidity` (lib.rs:225-275): paused guard, authority guard
(`require_keys_eq!(pool.authority, caller, Unauthorized)`), then plain
oblivious adds into both reserves and a timestamp stamp.  `amount_a`/`amount_b`
are the decoded plaintext values of the two client ciphertexts. -/
def addLiquidity (pool : SwapPool) (caller : Pubkey) (amount_a amount_b : Nat)
    (now : Int) : Except ProgError SwapPool :=
  if pool.is_paused then .error .PoolPaused
  else if pool.authority = caller then
    .ok { pool with
          reserve_a := eadd pool.reserve_a amount_a
          reserve_b := eadd pool.reserve_b amount_b
          last_update_ts := now }
  else .error .Unauthorized

/-- `remove_liquidity` (lib.rs:278-328): same guards as `add_liquidity`, then
plain oblivious subtractions from both reserves; no underflow check exists
between the guards and the subtractions. -/
def removeLiquidity (pool : SwapPool) (caller : Pubkey) (amount_a amount_b : Nat)
    (now : Int) : Except ProgError SwapPool :=
  if pool.is_paused then .error .PoolPaused
  else if pool.authority = caller then
    .ok { pool with
          reserve_a := esub pool.reserve_a amount_a
          reserve_b := esub pool.reserve_b amount_b
          last_update_ts := now }
  else .error .Unauthorized

/-- `swap_exact_in` (lib.rs:332-407): paused guard; re-derive the pool
authority PDA from the stored mints and require it equal the stored
`pool_authority` (bare `require_keys_eq!`, lib.rs:366); select the
`(reserve_in, reserve_out, protocol_fee_in)` triple by `a_to_b`
(lib.rs:369-373); run `compute_swap_updates`; write the three results back to
the fields the triple was read from (lib.rs:389-397); stamp `last_update_ts`.
The instruction's accounts (lib.rs:441-448) contain only the fee payer and the
oracle program — no caller-vs-`pool.authority` check exists.  The instruction
body issues no token-transfer CPI (its doc comment, lib.rs:331: "Token
transfers are handled separately via compressed token program"), so the
emitted transfer list is empty. -/
def swapExactIn (pool : SwapPool) (amount_in amount_out fee_amount : Nat)
    (a_to_b : Bool) (now : Int) : Except ProgError SwapResult :=
  if pool.is_paused then .error .PoolPaused
  else if pool.pool_authority = derivePoolAuthority pool.mint_a pool.mint_b then
    if a_to_b then
      let u := compute_swap_updates pool.reserve_a pool.reserve_b pool.protocol_fee_a
        amount_in amount_out fee_amount
      .ok { pool := { pool with
                      reserve_a := u.1
                      reserve_b := u.2.1
                      protocol_fee_a := u.2.2
                      last_update_ts := now }
            transfers := [] }
    else
      let u := compute_swap_updates pool.reserve_b pool.reserve_a pool.protocol_fee_b
        amount_in amount_out fee_amount
      .ok { pool := { pool with
                      reserve_b := u.1
                      reserve_a := u.2.1
                      protocol_fee_b := u.2.2
                      last_update_ts := now }
            transfers := [] }
  else .error .RequireKeysEqViolated

/-- The input-side reserve selected by `a_to_b` (lib.rs:369-373). -/
def dirReserveIn (pool : SwapPool) (a_to_b : Bool) : Nat :=
  if a_to_b then pool.reserve_a else pool.reserve_b

/-- The output-side reserve selected by `a_to_b` (lib.rs:369-373). -/
def dirReserveOut (pool : SwapPool) (a_to_b : Bool) : Nat :=
  if a_to_b then pool.reserve_b else pool.reserve_a

/-- The input-side protocol fee selected by `a_to_b` (lib.rs:369-373). -/
def dirFeeIn (pool : SwapPool) (a_to_b : Bool) : Nat :=
  if a_to_b then pool.protocol_fee_a else pool.protocol_fee_b

/-- The pool-mutating instructions of the program's surface that operate on an
existing pool.  The remaining instructions (`create_permission`,
lib.rs:113-143, and `delegate_pda`, lib.rs:146-160) neither read nor write any
`SwapPool` field, and `initialize_pool` only creates a pool. -/
inductive PoolInstr where
  | add (caller : Pubkey) (amount_a amount_b : Nat)
  | remove (caller : Pubkey) (amount_a amount_b : Nat)
  | swap (amount_in amount_out fee_amount : Nat) (a_to_b : Bool)
deriving Repr, DecidableEq

/-- One step of the pool state machine: dispatch a pool-mutating instruction. -/
def stepPool (pool : SwapPool) (i : PoolInstr) (now : Int) : Except ProgError SwapPool :=
  match i with
  | .add c a b => addLiquidity pool c a b now
  | .remove c a b => removeLiquidity pool c a b now
  | .swap ain aout f d => (swapExactIn pool ain aout f d now).map (·.pool)

/-- A concrete demonstration pool: the spec §8 scenario state after
`addLiquidity(1000, 1000)`, with a correctly derived pool authority. -/
def demoPool : SwapPool :=
  { authority := 7
    pool_authority := derivePoolAuthority 1 2
    mint_a := 1
    mint_b := 2
    reserve_a := 1000
    reserve_b := 1000
    protocol_fee_a := 0
    protocol_fee_b := 0
    fee_bps := 30
    is_paused := false
    last_update_ts := 0 }

/-- The demonstration pool with the pause gate set. -/
def pausedPool : SwapPool := { demoPool with is_paused := true }

/-! ### Arithmetic helper lemmas about the oracle model -/

theorem eadd_zero_right (a : Nat) : eadd a 0 = a % u128Mod := by
  simp [eadd]

theorem esub_zero_right (a : Nat) : esub a 0 = a % u128Mod := by
  simp [esub, Nat.add_mod_right]

theorem emul_mod_left_right (a b : Nat) : emul (a % u128Mod) (b % u128Mod) = emul a b := by
  unfold emul
  conv_rhs => rw [Nat.mul_mod]

theorem emul_comm (a b : Nat) : emul a b = emul b a := by
  rw [emul, emul, Nat.mul_comm]

/-- The collapsed form of `compute_swap_updates` on in-range state: the trade
commits exactly when both the liquidity comparison and the constant-product
comparison (on the oracle's 128-bit values) pass, and otherwise the function
returns the pre-trade state unchanged. -/
theorem compute_swap_updates_spec (x y p din dout f : Nat)
    (hx : x < u128Mod) (hy : y < u128Mod) (hp : p < u128Mod) :
    compute_swap_updates x y p din dout f =
      if dout ≤ y ∧ emul x y ≤ emul (eadd x din) (esub y dout) then
        (eadd x din, esub y dout, eadd p f)
      else
        (x, y, p) := by
  by_cases hl : dout ≤ y
  · by_cases hk : emul x y ≤ emul (eadd x din) (esub y dout)
    · simp [compute_swap_updates, ege, esel, hl, hk]
    · simp only [compute_swap_updates, ege, esel, encryptedZero, hl, hk,
        decide_True, decide_False, if_true, if_false, ite_self]
      simp [hl, hk, eadd_zero_right, esub_zero_right,
        Nat.mod_eq_of_lt hx, Nat.mod_eq_of_lt hy, Nat.mod_eq_of_lt hp]
  · simp only [compute_swap_updates, ege, esel, encryptedZero, hl,
      decide_True, decide_False, if_true, if_false, ite_self]
    simp [hl, eadd_zero_right, esub_zero_right,
      Nat.mod_eq_of_lt hx, Nat.mod_eq_of_lt hy, Nat.mod_eq_of_lt hp]

/-- The constant product (as the oracle computes it) never decreases across
`compute_swap_updates`, whatever the client amounts are. -/
theorem compute_swap_updates_k (x y p din dout f : Nat) :
    emul x y ≤ emul (compute_swap_updates x y p din dout f).1
      (compute_swap_updates x y p din dout f).2.1 := by
  by_cases hl : dout ≤ y
  · by_cases hk : emul x y ≤ emul (eadd x din) (esub y dout)
    · simp [compute_swap_updates, ege, esel, hl, hk]
    · simp [compute_swap_updates, ege, esel, encryptedZero, hl, hk,
        eadd_zero_right, esub_zero_right, emul_mod_left_right]
  · simp [compute_swap_updates, ege, esel, encryptedZero, hl,
      eadd_zero_right, esub_zero_right, emul_mod_left_right]

/-- A committed `add_liquidity` implies the pool was, and stays, unpaused. -/
theorem addLiquidity_ok_paused (pool : SwapPool) (c : Pubkey) (a b : Nat) (now : Int)
    (pool' : SwapPool) (h : addLiquidity pool c a b now = .ok pool') :
    pool.is_paused = false ∧ pool'.is_paused = false := by
  unfold addLiquidity at h
  split at h
  · exact Except.noConfusion h
  · rename_i hp
    split at h
    · simp only [Except.ok.injEq] at h
      subst h
      exact ⟨by simpa using hp, by simpa using hp⟩
    · exact Except.noConfusion h

/-- A committed `remove_liquidity` implies the pool was, and stays, unpaused. -/
theorem removeLiquidity_ok_paused (pool : SwapPool) (c : Pubkey) (a b : Nat) (now : Int)
    (pool' : SwapPool) (h : removeLiquidity pool c a b now = .ok pool') :
    pool.is_paused = false ∧ pool'.is_paused = false := by
  unfold removeLiquidity at h
  split at h
  · exact Except.noConfusion h
  · rename_i hp
    split at h
    · simp only [Except.ok.injEq] at h
      subst h
      exact ⟨by simpa using hp, by simpa using hp⟩
    · exact Except.noConfusion h

/-- A committed `swap_exact_in` implies the pool was, and stays, unpaused. -/
theorem swapExactIn_ok_paused (pool : SwapPool) (ain aout f : Nat) (d : Bool) (now : Int)
    (res : SwapResult) (h : swapExactIn pool ain aout f d now = .ok res) :
    pool.is_paused = false ∧ res.pool.is_paused = false := by
  unfold swapExactIn at h
  split at h
  · exact Except.noConfusion h
  · rename_i hp
    split at h
    · split at h
      · simp only [Except.ok.injEq] at h
        subst h
        exact ⟨by simpa using hp, by simpa using hp⟩
      · simp only [Except.ok.injEq] at h
        subst h
        exact ⟨by simpa using hp, by simpa using hp⟩
    · exact Except.noConfusion h

/-- A committed pool-mutating instruction implies the pool was, and stays,
unpaused. -/
theorem stepPool_ok_paused (pool : SwapPool) (i : PoolInstr) (now : Int) (pool' : SwapPool)
    (h : stepPool pool i now = .ok pool') :
    pool.is_paused = false ∧ pool'.is_paused = false := by
  cases i with
  | add c a b => exact addLiquidity_ok_paused pool c a b now pool' h
  | remove c a b => exact removeLiquidity_ok_paused pool c a b now pool' h
  | swap ain aout f d =>
    cases hsw : swapExactIn pool ain aout f d now with
    | error e => simp [stepPool, hsw, Except.map] at h
    | ok res =>
      simp only [stepPool, hsw, Except.map] at h
      simp only [Except.ok.injEq] at h
      subst h
      exact swapExactIn_ok_paused pool ain aout f d now res hsw

/-- The committed state of `swapExactIn demoPool 100 90 3 true 1`
(the spec §8 scenario: reserves become `(1100, 910)`, `protocolFeeA += 3`). -/
def demoSwapRes : SwapResult :=
  { pool := { demoPool with
              reserve_a := 1100
              reserve_b := 910
              protocol_fee_a := 3
              last_update_ts := 1 }
    transfers := [] }

/-- C1: a `swap_exact_in` call on an unpaused pool commits
`(x + Δin, y − Δout)` and accrues the fee on the input side exactly when
both the liquidity comparison `y ≥ Δout` and the constant-product comparison
`x·y ≤ (x+Δin)·(y−Δout)` pass in the oracle's 128-bit arithmetic; otherwise
the committed reserves and the input-side protocol fee equal the pre-trade
values exactly (no partial application). -/
theorem swap_exact_in_gates_commit (pool : SwapPool) (din dout f : Nat) (d : Bool) (now : Int)
    (hpause : pool.is_paused = false)
    (hauth : pool.pool_authority = derivePoolAuthority pool.mint_a pool.mint_b)
    (hx : dirReserveIn pool d < u128Mod) (hy : dirReserveOut pool d < u128Mod)
    (hf : dirFeeIn pool d < u128Mod) :
    ∃ res, swapExactIn pool din dout f d now = .ok res ∧
      (dirReserveIn res.pool d, dirReserveOut res.pool d, dirFeeIn res.pool d) =
        (if dout ≤ dirReserveOut pool d ∧
            emul (dirReserveIn pool d) (dirReserveOut pool d) ≤
              emul (eadd (dirReserveIn pool d) din) (esub (dirReserveOut pool d) dout) then
          (eadd (dirReserveIn pool d) din, esub (dirReserveOut pool d) dout,
            eadd (dirFeeIn pool d) f)
        else
          (dirReserveIn pool d, dirReserveOut pool d, dirFeeIn pool d)) := by
  cases d with
  | true =>
    simp only [dirReserveIn, dirReserveOut, dirFeeIn, if_pos rfl] at hx hy hf ⊢
    have hu := compute_swap_updates_spec pool.reserve_a pool.reserve_b pool.protocol_fee_a
      din dout f hx hy hf
    refine ⟨{ pool := { pool with
                reserve_a := (compute_swap_updates pool.reserve_a pool.reserve_b
                  pool.protocol_fee_a din dout f).1
                reserve_b := (compute_swap_updates pool.reserve_a pool.reserve_b
                  pool.protocol_fee_a din dout f).2.1
                protocol_fee_a := (compute_swap_updates pool.reserve_a pool.reserve_b
                  pool.protocol_fee_a din dout f).2.2
                last_update_ts := now }
              transfers := [] }, ?_, ?_⟩
    · simp [swapExactIn, hpause, hauth]
    · rw [hu]
      by_cases hc : dout ≤ pool.reserve_b ∧
          emul pool.reserve_a pool.reserve_b ≤
            emul (eadd pool.reserve_a din) (esub pool.reserve_b dout)
      · simp [hc]
      · simp [hc]
  | false =>
    simp only [dirReserveIn, dirReserveOut, dirFeeIn, if_neg Bool.false_ne_true] at hx hy hf ⊢
    have hu := compute_swap_updates_spec pool.reserve_b pool.reserve_a pool.protocol_fee_b
      din dout f hx hy hf
    refine ⟨{ pool := { pool with
                reserve_b := (compute_swap_updates pool.reserve_b pool.reserve_a
                  pool.protocol_fee_b din dout f).1
                reserve_a := (compute_swap_updates pool.reserve_b pool.reserve_a
                  pool.protocol_fee_b din dout f).2.1
                protocol_fee_b := (compute_swap_updates pool.reserve_b pool.reserve_a
                  pool.protocol_fee_b din dout f).2.2
                last_update_ts := now }
              transfers := [] }, ?_, ?_⟩
    · simp [swapExactIn, hpause, hauth]
    · rw [hu]

/-- C1 witness: the spec §8 scenario committed by `swap_exact_in_gates_commit`
at `demoPool` with `(Δin, Δout, fee) = (100, 90, 3)`. -/
theorem swap_exact_in_gates_commit_witness :
    demoPool.is_paused = false ∧
    demoPool.pool_authority = derivePoolAuthority demoPool.mint_a demoPool.mint_b ∧
    (∃ res, swapExactIn demoPool 100 90 3 true 1 = .ok res ∧
      (dirReserveIn res.pool true, dirReserveOut res.pool true, dirFeeIn res.pool true) =
        (1100, 910, 3)) := by
  refine ⟨rfl, rfl, ?_⟩
  obtain ⟨res, h1, h2⟩ := swap_exact_in_gates_commit demoPool 100 90 3 true 1 rfl rfl
    (by decide) (by decide) (by decide)
  refine ⟨res, h1, ?_⟩
  rw [h2]
  decide

/-- C2: across any committed `swap_exact_in`, the oracle-computed product
`reserveA × reserveB` is non-decreasing, whatever the direction and the client
amounts. -/
theorem swap_exact_in_k_nondecreasing (pool : SwapPool) (din dout f : Nat) (d : Bool)
    (now : Int) (res : SwapResult) (h : swapExactIn pool din dout f d now = .ok res) :
    emul pool.reserve_a pool.reserve_b ≤ emul res.pool.reserve_a res.pool.reserve_b := by
  unfold swapExactIn at h
  split at h
  · exact Except.noConfusion h
  · split at h
    · split at h
      · simp only [Except.ok.injEq] at h
        subst h
        exact compute_swap_updates_k pool.reserve_a pool.reserve_b pool.protocol_fee_a din dout f
      · simp only [Except.ok.injEq] at h
        subst h
        calc emul pool.reserve_a pool.reserve_b
            = emul pool.reserve_b pool.reserve_a := emul_comm _ _
          _ ≤ emul (compute_swap_updates pool.reserve_b pool.reserve_a pool.protocol_fee_b
                din dout f).1
              (compute_swap_updates pool.reserve_b pool.reserve_a pool.protocol_fee_b
                din dout f).2.1 :=
            compute_swap_updates_k pool.reserve_b pool.reserve_a pool.protocol_fee_b din dout f
          _ = _ := emul_comm _ _
    · exact Except.noConfusion h

/-- C2 witness: the committed spec §8 scenario swap raises the product from
`1000·1000` to `1100·910`. -/
theorem swap_exact_in_k_nondecreasing_witness :
    swapExactIn demoPool 100 90 3 true 1 = .ok demoSwapRes ∧
    emul demoPool.reserve_a demoPool.reserve_b ≤
      emul demoSwapRes.pool.reserve_a demoSwapRes.pool.reserve_b :=
  ⟨rfl, swap_exact_in_k_nondecreasing demoPool 100 90 3 true 1 demoSwapRes rfl⟩

/-- C3 counterexample: the swap instruction of this program issues no token
transfer at all — on the concrete spec §8 scenario the list of transfer CPIs
it executes is empty, not the two transfers the claim requires. -/
theorem swap_exact_in_two_transfers_cex :
    Except.map (fun r => r.transfers) (swapExactIn demoPool 100 90 3 true 1) =
      .ok ([] : List TransferEvent) ∧
    ([] : List TransferEvent).length ≠ 2 := by
  constructor
  · rfl
  · decide

/-- C3 amended: `swap_exact_in` issues no token transfer within the
instruction (its doc comment, lib.rs:331, defers transfers to the compressed
token program); after the swap computation it commits only the pool-state
update, stamping `last_update_ts`. -/
theorem swap_exact_in_no_transfer (pool : SwapPool) (din dout f : Nat) (d : Bool)
    (now : Int) (res : SwapResult) (h : swapExactIn pool din dout f d now = .ok res) :
    res.transfers = [] ∧ res.pool.last_update_ts = now := by
  unfold swapExactIn at h
  split at h
  · exact Except.noConfusion h
  · split at h
    · split at h
      · simp only [Except.ok.injEq] at h
        subst h
        exact ⟨rfl, rfl⟩
      · simp only [Except.ok.injEq] at h
        subst h
        exact ⟨rfl, rfl⟩
    · exact Except.noConfusion h

/-- C3 amended witness: the concrete spec §8 scenario commit moves no tokens
and stamps the timestamp. -/
theorem swap_exact_in_no_transfer_witness :
    swapExactIn demoPool 50 40 2 true 9 =
      .ok { pool := { demoPool with
                      reserve_a := 1050
                      reserve_b := 960
                      protocol_fee_a := 2
                      last_update_ts := 9 }
            transfers := [] } ∧
    ({ pool := { demoPool with
                 reserve_a := 1050
                 reserve_b := 960
                 protocol_fee_a := 2
                 last_update_ts := 9 }
       transfers := [] } : SwapResult).transfers = [] ∧
    ({ pool := { demoPool with
                 reserve_a := 1050
                 reserve_b := 960
                 protocol_fee_a := 2
                 last_update_ts := 9 }
       transfers := [] } : SwapResult).pool.last_update_ts = 9 :=
  ⟨rfl, swap_exact_in_no_transfer demoPool 50 40 2 true 9 _ rfl⟩

/-- C4: `swap_exact_in` selects its operands by direction, writes the three
results of `compute_swap_updates` back to the same fields it read them from
(so the fee accrues to the input side), leaves the opposite-side protocol fee
and all configuration fields unchanged, and stamps `last_update_ts`. -/
theorem swap_exact_in_direction_writeback (pool : SwapPool) (din dout f : Nat) (d : Bool)
    (now : Int) (hpause : pool.is_paused = false)
    (hauth : pool.pool_authority = derivePoolAuthority pool.mint_a pool.mint_b) :
    ∃ res, swapExactIn pool din dout f d now = .ok res ∧
      res.pool.authority = pool.authority ∧
      res.pool.pool_authority = pool.pool_authority ∧
      res.pool.mint_a = pool.mint_a ∧
      res.pool.mint_b = pool.mint_b ∧
      res.pool.fee_bps = pool.fee_bps ∧
      res.pool.is_paused = pool.is_paused ∧
      res.pool.last_update_ts = now ∧
      (d = true →
        (res.pool.reserve_a, res.pool.reserve_b, res.pool.protocol_fee_a) =
          compute_swap_updates pool.reserve_a pool.reserve_b pool.protocol_fee_a din dout f ∧
        res.pool.protocol_fee_b = pool.protocol_fee_b) ∧
      (d = false →
        (res.pool.reserve_b, res.pool.reserve_a, res.pool.protocol_fee_b) =
          compute_swap_updates pool.reserve_b pool.reserve_a pool.protocol_fee_b din dout f ∧
        res.pool.protocol_fee_a = pool.protocol_fee_a) := by
  cases d with
  | true =>
    refine ⟨{ pool := { pool with
                reserve_a := (compute_swap_updates pool.reserve_a pool.reserve_b
                  pool.protocol_fee_a din dout f).1
                reserve_b := (compute_swap_updates pool.reserve_a pool.reserve_b
                  pool.protocol_fee_a din dout f).2.1
                protocol_fee_a := (compute_swap_updates pool.reserve_a pool.reserve_b
                  pool.protocol_fee_a din dout f).2.2
                last_update_ts := now }
              transfers := [] }, ?_, rfl, rfl, rfl, rfl, rfl, rfl, rfl, ?_, ?_⟩
    · simp [swapExactIn, hpause, hauth]
    · intro _
      exact ⟨rfl, rfl⟩
    · intro hcontra
      exact absurd hcontra (by simp)
  | false =>
    refine ⟨{ pool := { pool with
                reserve_b := (compute_swap_updates pool.reserve_b pool.reserve_a
                  pool.protocol_fee_b din dout f).1
                reserve_a := (compute_swap_updates pool.reserve_b pool.reserve_a
                  pool.protocol_fee_b din dout f).2.1
                protocol_fee_b := (compute_swap_updates pool.reserve_b pool.reserve_a
                  pool.protocol_fee_b din dout f).2.2
                last_update_ts := now }
              transfers := [] }, ?_, rfl, rfl, rfl, rfl, rfl, rfl, rfl, ?_, ?_⟩
    · simp [swapExactIn, hpause, hauth]
    · intro hcontra
      exact absurd hcontra (by simp)
    · intro _
      exact ⟨rfl, rfl⟩

/-- C4 witness: the spec §8 scenario — `a_to_b = true` writes the swap results
into `(reserve_a, reserve_b, protocol_fee_a)`, leaves `protocol_fee_b`
unchanged and stamps the timestamp. -/
theorem swap_exact_in_direction_writeback_witness :
    demoPool.is_paused = false ∧
    (∃ res, swapExactIn demoPool 100 90 3 true 1 = .ok res ∧
      res.pool.last_update_ts = 1 ∧
      (res.pool.reserve_a, res.pool.reserve_b, res.pool.protocol_fee_a) =
        compute_swap_updates demoPool.reserve_a demoPool.reserve_b demoPool.protocol_fee_a
          100 90 3 ∧
      res.pool.protocol_fee_b = demoPool.protocol_fee_b) := by
  refine ⟨rfl, ?_⟩
  obtain ⟨res, h1, _, _, _, _, _, _, hts, hdir, _⟩ :=
    swap_exact_in_direction_writeback demoPool 100 90 3 true 1 rfl rfl
  obtain ⟨hw, hfb⟩ := hdir rfl
  exact ⟨res, h1, hts, hw, hfb⟩

/-- C5: on a paused pool each of `add_liquidity`, `remove_liquidity` and
`swap_exact_in` fails with `PoolPaused`, committing nothing. -/
theorem paused_pool_rejects_mutations (pool : SwapPool) (caller : Pubkey)
    (a b din dout f : Nat) (d : Bool) (now : Int) (hp : pool.is_paused = true) :
    addLiquidity pool caller a b now = .error .PoolPaused ∧
    removeLiquidity pool caller a b now = .error .PoolPaused ∧
    swapExactIn pool din dout f d now = .error .PoolPaused := by
  refine ⟨?_, ?_, ?_⟩ <;> simp [addLiquidity, removeLiquidity, swapExactIn, hp]

/-- C5 witness: the three mutating instructions all fail with `PoolPaused` on
the concrete paused pool. -/
theorem paused_pool_rejects_mutations_witness :
    pausedPool.is_paused = true ∧
    addLiquidity pausedPool 7 1 2 3 = .error .PoolPaused ∧
    removeLiquidity pausedPool 7 1 2 3 = .error .PoolPaused ∧
    swapExactIn pausedPool 4 5 6 true 3 = .error .PoolPaused :=
  ⟨rfl, paused_pool_rejects_mutations pausedPool 7 1 2 4 5 6 true 3 rfl⟩

/-- C6: on an unpaused pool, `add_liquidity` fails with `Unauthorized` exactly
when the caller differs from the stored `pool.authority`, and otherwise
commits plain oblivious additions into both reserves, leaving both protocol
fees unchanged, with no liquidity or constant-product gating. -/
theorem add_liquidity_spec (pool : SwapPool) (caller : Pubkey) (a b : Nat) (now : Int)
    (hp : pool.is_paused = false) :
    (caller ≠ pool.authority → addLiquidity pool caller a b now = .error .Unauthorized) ∧
    (caller = pool.authority →
      ∃ pool', addLiquidity pool caller a b now = .ok pool' ∧
        pool'.reserve_a = eadd pool.reserve_a a ∧
        pool'.reserve_b = eadd pool.reserve_b b ∧
        pool'.protocol_fee_a = pool.protocol_fee_a ∧
        pool'.protocol_fee_b = pool.protocol_fee_b ∧
        pool'.authority = pool.authority ∧
        pool'.is_paused = false ∧
        pool'.last_update_ts = now) := by
  constructor
  · intro hne
    have hne' : pool.authority ≠ caller := fun h => hne h.symm
    simp [addLiquidity, hp, hne']
  · intro heq
    refine ⟨{ pool with
              reserve_a := eadd pool.reserve_a a
              reserve_b := eadd pool.reserve_b b
              last_update_ts := now }, ?_, rfl, rfl, rfl, rfl, rfl, hp, rfl⟩
    simp [addLiquidity, hp, heq]

/-- C6 witness: caller `8` is rejected as `Unauthorized`; the stored authority
`7` commits `reserve_a + 5` with both protocol fees unchanged. -/
theorem add_liquidity_spec_witness :
    demoPool.is_paused = false ∧
    addLiquidity demoPool 8 5 6 2 = .error .Unauthorized ∧
    (∃ pool', addLiquidity demoPool 7 5 6 2 = .ok pool' ∧
      pool'.reserve_a = eadd demoPool.reserve_a 5 ∧
      pool'.protocol_fee_a = demoPool.protocol_fee_a ∧
      pool'.protocol_fee_b = demoPool.protocol_fee_b) := by
  refine ⟨rfl, ?_, ?_⟩
  · exact (add_liquidity_spec demoPool 8 5 6 2 rfl).1 (by decide)
  · obtain ⟨p', h1, h2, _, h4, h5, _, _, _⟩ := (add_liquidity_spec demoPool 7 5 6 2 rfl).2 rfl
    exact ⟨p', h1, h2, h4, h5⟩

/-- C7: under the same guards as `add_liquidity`, `remove_liquidity` commits
wrapping subtractions with no in-band underflow check: an amount exceeding the
reserve still succeeds and stores the wrapped value `reserve + 2^128 − amount`
— which is larger than the pre-trade reserve, not the mathematical
difference. -/
theorem remove_liquidity_wraps (pool : SwapPool) (caller : Pubkey) (a b : Nat) (now : Int)
    (hp : pool.is_paused = false) (hc : caller = pool.authority)
    (hra : pool.reserve_a < u128Mod) :
    ∃ pool', removeLiquidity pool caller a b now = .ok pool' ∧
      pool'.reserve_a = esub pool.reserve_a a ∧
      pool'.reserve_b = esub pool.reserve_b b ∧
      pool'.protocol_fee_a = pool.protocol_fee_a ∧
      pool'.protocol_fee_b = pool.protocol_fee_b ∧
      (pool.reserve_a < a → a < u128Mod →
        pool'.reserve_a = pool.reserve_a + (u128Mod - a) ∧
        pool.reserve_a < pool'.reserve_a) := by
  refine ⟨{ pool with
            reserve_a := esub pool.reserve_a a
            reserve_b := esub pool.reserve_b b
            last_update_ts := now }, ?_, rfl, rfl, rfl, rfl, ?_⟩
  · simp [removeLiquidity, hp, hc]
  · intro hlt ha
    have hval : esub pool.reserve_a a = pool.reserve_a + (u128Mod - a) := by
      rw [esub, Nat.mod_eq_of_lt hra, Nat.mod_eq_of_lt ha]
      apply Nat.mod_eq_of_lt
      omega
    refine ⟨hval, ?_⟩
    show pool.reserve_a < esub pool.reserve_a a
    rw [hval]
    omega

/-- C7 witness: removing `2000` from a reserve of `1000` succeeds and stores
the wrapped value `1000 + 2^128 − 2000`, strictly above the old reserve. -/
theorem remove_liquidity_wraps_witness :
    demoPool.is_paused = false ∧
    (7 : Pubkey) = demoPool.authority ∧
    demoPool.reserve_a < u128Mod ∧
    (∃ pool', removeLiquidity demoPool 7 2000 1 3 = .ok pool' ∧
      pool'.reserve_a = demoPool.reserve_a + (u128Mod - 2000) ∧
      demoPool.reserve_a < pool'.reserve_a) := by
  refine ⟨rfl, rfl, by decide, ?_⟩
  obtain ⟨p', h1, _, _, _, _, himp⟩ :=
    remove_liquidity_wraps demoPool 7 2000 1 3 rfl rfl (by decide)
  obtain ⟨hv, hlt⟩ := himp (by decide) (by decide)
  exact ⟨p', h1, hv, hlt⟩

/-- C8: a successful `initialize_pool` stores encrypted zero in all four
encrypted fields, the `pool_authority` derived from
`("pool_authority", mint_a, mint_b)` under the program id, `is_paused = false`
and the current clock in `last_update_ts`. -/
theorem initialize_pool_spec (authority mA mB : Pubkey) (fee_bps : Nat) (now : Int) :
    (initializePool authority mA mB fee_bps now).reserve_a = encryptedZero ∧
    (initializePool authority mA mB fee_bps now).reserve_b = encryptedZero ∧
    (initializePool authority mA mB fee_bps now).protocol_fee_a = encryptedZero ∧
    (initializePool authority mA mB fee_bps now).protocol_fee_b = encryptedZero ∧
    (initializePool authority mA mB fee_bps now).pool_authority =
      findProgramAddress [poolAuthSeed, pubkeyBytes mA, pubkeyBytes mB] swapProgramId ∧
    (initializePool authority mA mB fee_bps now).is_paused = false ∧
    (initializePool authority mA mB fee_bps now).last_update_ts = now :=
  ⟨rfl, rfl, rfl, rfl, rfl, rfl, rfl⟩

/-- C9 counterexample: no pool-mutating instruction of the program's surface
ever commits a transition from `is_paused = false` to `is_paused = true` — the
claimed `Active{paused=false} → Active{paused=true}` transition does not exist
in the instruction surface. -/
theorem pause_transition_cex :
    ¬ ∃ (pool : SwapPool) (i : PoolInstr) (now : Int) (pool' : SwapPool),
        stepPool pool i now = .ok pool' ∧ pool.is_paused = false ∧
        pool'.is_paused = true := by
  rintro ⟨pool, i, now, pool', h, _, htrue⟩
  have hps := stepPool_ok_paused pool i now pool' h
  rw [hps.2] at htrue
  exact Bool.noConfusion htrue

/-- C9 amended: the instruction surface realizes no paused-state transition in
either direction: every committed pool-mutating instruction requires and
preserves `is_paused = false`, and `initialize_pool` creates the pool with
`is_paused = false`. -/
theorem pause_state_machine_spec (pool : SwapPool) (i : PoolInstr) (now : Int)
    (pool' : SwapPool) (auth mA mB : Pubkey) (fb : Nat) (t : Int)
    (h : stepPool pool i now = .ok pool') :
    pool.is_paused = false ∧ pool'.is_paused = false ∧
    (initializePool auth mA mB fb t).is_paused = false :=
  ⟨(stepPool_ok_paused pool i now pool' h).1,
   (stepPool_ok_paused pool i now pool' h).2, rfl⟩

/-- The pool committed by `stepPool demoPool (add 7 1 2) 5`. -/
def demoAddPool : SwapPool :=
  { demoPool with reserve_a := 1001, reserve_b := 1002, last_update_ts := 5 }

/-- C9 amended witness: a concrete committed `add_liquidity` step preserves
`is_paused = false`, and initialization starts unpaused. -/
theorem pause_state_machine_spec_witness :
    stepPool demoPool (PoolInstr.add 7 1 2) 5 = .ok demoAddPool ∧
    demoPool.is_paused = false ∧
    demoAddPool.is_paused = false ∧
    (initializePool 9 1 2 30 0).is_paused = false := by
  refine ⟨rfl, ?_⟩
  have h := pause_state_machine_spec demoPool (PoolInstr.add 7 1 2) 5 demoAddPool 9 1 2 30 0 rfl
  exact ⟨h.1, h.2.1, h.2.2⟩

/-- C10: `swap_exact_in` performs no caller-identity authorization: it can
never fail with `Unauthorized`, and it succeeds exactly when the pool is
unpaused and the stored `pool_authority` equals the PDA re-derived from
`("pool_authority", mint_a, mint_b)` — independently of any caller. -/
theorem swap_exact_in_no_caller_auth (pool : SwapPool) (din dout f : Nat) (d : Bool)
    (now : Int) :
    swapExactIn pool din dout f d now ≠ .error .Unauthorized ∧
    ((∃ res, swapExactIn pool din dout f d now = .ok res) ↔
      (pool.is_paused = false ∧
        pool.pool_authority = derivePoolAuthority pool.mint_a pool.mint_b)) := by
  cases hp : pool.is_paused
  · by_cases ha : pool.pool_authority = derivePoolAuthority pool.mint_a pool.mint_b
    · cases d <;> simp [swapExactIn, hp, ha]
    · simp [swapExactIn, hp, ha]
  · simp [swapExactIn, hp]
